import Mathlib

/-!
Shallow embedding of the Mini-YOLO dataset ingestion worker
(`fc_worker/main.py`) and proofs about its behaviour.

Python strings are modelled as Lean `String`, paths as their POSIX string
form, the filesystem as an association list from path strings to entries,
and the external collaborators (YAML parser, OSS upload, PIL image
introspection, clock) as oracle fields of an environment record.
Exceptions are modelled with `Except String`, carrying the message
`str(e)` would produce.
-/

namespace MiniYolo

/-! ## Python string primitives -/

/-- Characters Python's `str.strip` / `str.split()` treat as whitespace
(ASCII fragment). -/
def pyIsSpace (c : Char) : Bool :=
  c == ' ' || c == '\t' || c == '\n' || c == '\r' || c == '\x0b' || c == '\x0c'

/-- Python `str.strip()`. -/
def pyStrip (s : String) : String :=
  ⟨((s.toList.dropWhile pyIsSpace).reverse.dropWhile pyIsSpace).reverse⟩

/-- Helper for `pySplitWs`: accumulates the current (reversed) token. -/
def splitWsAux (tok : List Char) : List Char → List (List Char)
  | [] => if tok.isEmpty then [] else [tok.reverse]
  | c :: cs =>
    if pyIsSpace c then
      if tok.isEmpty then splitWsAux [] cs else tok.reverse :: splitWsAux [] cs
    else splitWsAux (c :: tok) cs

/-- Python `str.split()` (no argument): split on whitespace runs, no empties. -/
def pySplitWs (s : String) : List String :=
  (splitWsAux [] s.toList).map (fun l => ⟨l⟩)

/-- Helper for `pySplitSepS`: accumulates the current (reversed) token. -/
def splitSepAux (sep : Char) (tok : List Char) : List Char → List (List Char)
  | [] => [tok.reverse]
  | c :: cs =>
    if c == sep then tok.reverse :: splitSepAux sep [] cs
    else splitSepAux sep (c :: tok) cs

/-- Python `str.split(sep)` for a single-character separator (keeps empties). -/
def pySplitSepS (s : String) (sep : Char) : List String :=
  (splitSepAux sep [] s.toList).map (fun l => ⟨l⟩)

/-! ## Python numeric literal parsing (`int(...)` / `float(...)`) -/

def digitVal (c : Char) : Nat := c.toNat - 48

/-- Digit run with single underscores allowed between digits; returns
(value, number of digits). -/
def pyDigitsAux (acc cnt : Nat) : List Char → Option (Nat × Nat)
  | [] => some (acc, cnt)
  | '_' :: c :: cs =>
    if c.isDigit then pyDigitsAux (acc * 10 + digitVal c) (cnt + 1) cs else none
  | ['_'] => none
  | c :: cs =>
    if c.isDigit then pyDigitsAux (acc * 10 + digitVal c) (cnt + 1) cs else none

/-- A nonempty digit group as in Python numeric literals (`digit (["_"] digit)*`). -/
def pyDigitGroup? : List Char → Option (Nat × Nat)
  | [] => none
  | c :: cs => if c.isDigit then pyDigitsAux (digitVal c) 1 cs else none

/-- Strips one optional sign; returns (isNegative, rest). -/
def pySign : List Char → Bool × List Char
  | '+' :: cs => (false, cs)
  | '-' :: cs => (true, cs)
  | cs => (false, cs)

/-- Python `int(s)` on a string: optional sign then a digit group. -/
def pyInt? (s : String) : Option Int :=
  let cs := (pyStrip s).toList
  let sr := pySign cs
  match pyDigitGroup? sr.2 with
  | some v => some (if sr.1 then -(v.1 : Int) else (v.1 : Int))
  | none => none

/-- Value of a parsed Python float: an exact rational, an infinity, or NaN. -/
inductive PyFloat where
  | finite (q : ℚ)
  | inf (neg : Bool)
  | nan
deriving DecidableEq

/-- Splits a list at the first character satisfying `p`; the separator is
dropped.  Returns `none` for the right part if no such character occurs. -/
def splitAtChar (p : Char → Bool) : List Char → List Char × Option (List Char)
  | [] => ([], none)
  | c :: cs =>
    if p c then ([], some cs)
    else
      let r := splitAtChar p cs
      (c :: r.1, r.2)

/-- Mantissa of a Python float literal: `digits [. digits]`, either side of
the dot optional but at least one digit present.  The value is returned as
a numerator/denominator pair (denominator a power of ten). -/
def parseMantissa? (cs : List Char) : Option (Nat × Nat) :=
  let r := splitAtChar (fun c => c == '.') cs
  match r.2 with
  | none => (pyDigitGroup? r.1).map (fun p => (p.1, 1))
  | some fp =>
    match r.1, fp with
    | [], [] => none
    | [], f => (pyDigitGroup? f).map (fun p => (p.1, 10 ^ p.2))
    | ip, [] => (pyDigitGroup? ip).map (fun p => (p.1, 1))
    | ip, f =>
      match pyDigitGroup? ip, pyDigitGroup? f with
      | some a, some b => some (a.1 * 10 ^ b.2 + b.1, 10 ^ b.2)
      | _, _ => none

/-- Exponent part of a Python float literal: optional sign, digit group. -/
def parseExp? (cs : List Char) : Option Int :=
  let sr := pySign cs
  match pyDigitGroup? sr.2 with
  | some v => some (if sr.1 then -(v.1 : Int) else (v.1 : Int))
  | none => none

def lowerList (l : List Char) : List Char := l.map Char.toLower

/-- The exact rational value of a parsed float: sign, mantissa
numerator/denominator, decimal exponent. -/
def pyRatVal (neg : Bool) (num den : Nat) (e : Int) : ℚ :=
  let num' : Nat := if 0 ≤ e then num * 10 ^ e.toNat else num
  let den' : Nat := if 0 ≤ e then den else den * 10 ^ (-e).toNat
  mkRat (if neg then -(num' : Int) else (num' : Int)) den'

/-- Python `float(s)` on a string: sign, then `inf`/`infinity`/`nan`
(case-insensitive) or mantissa with optional exponent. -/
def pyFloat? (s : String) : Option PyFloat :=
  let cs := (pyStrip s).toList
  let sr := pySign cs
  let low := lowerList sr.2
  if low = "inf".toList ∨ low = "infinity".toList then some (.inf sr.1)
  else if low = "nan".toList then some .nan
  else
    let me := splitAtChar (fun c => c == 'e' || c == 'E') sr.2
    match me.2 with
    | none =>
      (parseMantissa? me.1).map (fun p => .finite (pyRatVal sr.1 p.1 p.2 0))
    | some ecs =>
      match parseMantissa? me.1, parseExp? ecs with
      | some p, some e => some (.finite (pyRatVal sr.1 p.1 p.2 e))
      | _, _ => none

/-! ## Annotation parsing (`validate_and_parse_dataset`, label-file loop) -/

/-- One bounding-box record: `{"class_id": cls_id, "bbox": bbox}`. -/
structure AnnotationRecord where
  class_id : Int
  bbox : List PyFloat
deriving DecidableEq

/-- `[float(x) for x in ts]`: all parse, or the comprehension raises. -/
def mapFloat? : List String → Option (List PyFloat)
  | [] => some []
  | t :: ts =>
    match pyFloat? t, mapFloat? ts with
    | some q, some qs => some (q :: qs)
    | _, _ => none

/-- One iteration of the label-file loop: `parts = line.strip().split()`;
a record is appended iff `len(parts) >= 5` and `int(parts[0])`,
`[float(x) for x in parts[1:5]]` all succeed. -/
def parseLabelLine (line : String) : Option AnnotationRecord :=
  let parts := pySplitWs (pyStrip line)
  if parts.length ≥ 5 then
    match pyInt? (parts.getD 0 ""), mapFloat? ((parts.drop 1).take 4) with
    | some cls, some bbox => some ⟨cls, bbox⟩
    | _, _ => none
  else none

/-- Python text-mode line splitting with universal newlines
(`\r\n`, `\r`, `\n` all end a line). -/
def pyLinesAux (tok : List Char) : List Char → List (List Char)
  | [] => [tok.reverse]
  | '\r' :: '\n' :: cs => tok.reverse :: pyLinesAux [] cs
  | '\r' :: cs => tok.reverse :: pyLinesAux [] cs
  | '\n' :: cs => tok.reverse :: pyLinesAux [] cs
  | c :: cs => pyLinesAux (c :: tok) cs

def pyLinesStr (content : String) : List String :=
  (pyLinesAux [] content.toList).map (fun l => ⟨l⟩)

/-- One step of the `for line in lf` loop: append the parsed record, or
keep the accumulator when the line is dropped. -/
def appendParsed (acc : List AnnotationRecord) (line : String) : List AnnotationRecord :=
  match parseLabelLine line with
  | some a => acc ++ [a]
  | none => acc

/-- The `for line in lf` loop of the source: fold over the lines,
appending each successfully parsed record. -/
def parseLabelContent (content : String) : List AnnotationRecord :=
  (pyLinesStr content).foldl appendParsed []

/-! ## POSIX path strings (`pathlib.Path` fragment) -/

def isAbsolute (p : String) : Bool :=
  match p.toList with
  | '/' :: _ => true
  | _ => false

/-- `Path(a) / b` for a relative `b`. -/
def pathJoin (a b : String) : String := a ++ "/" ++ b

/-- `Path(p).name`: the last `/`-separated component. -/
def baseName (p : String) : String := (pySplitSepS p '/').getLastD ""

/-- `Path(p).suffix`: from the last dot of the name, provided that dot is
neither the first nor the last character of the name. -/
def pySuffix (p : String) : String :=
  let n := (baseName p).toList
  let tail := n.reverse.takeWhile (fun c => c != '.')
  if tail.length < n.length ∧ 0 < tail.length ∧ 0 < n.length - 1 - tail.length then
    ⟨'.' :: tail.reverse⟩
  else ""

/-- `Path(p).stem`: the name minus `pySuffix`. -/
def pyStem (p : String) : String :=
  let n := (baseName p).toList
  let tail := n.reverse.takeWhile (fun c => c != '.')
  if tail.length < n.length ∧ 0 < tail.length ∧ 0 < n.length - 1 - tail.length then
    ⟨n.take (n.length - 1 - tail.length)⟩
  else ⟨n⟩

/-- Python `str.lower()` (ASCII fragment). -/
def pyLower (s : String) : String := ⟨s.toList.map Char.toLower⟩

/-- Python `str.replace(pat, rep)`: all occurrences, left to right,
non-overlapping.  Structured with explicit fuel (one unit per consumed
character, so `length l` units always suffice) to keep the recursion
structural. -/
def pyReplaceFuel (pat rep : List Char) : Nat → List Char → List Char
  | _, [] => []
  | 0, l => l
  | fuel + 1, c :: cs =>
    if pat.isPrefixOf (c :: cs) ∧ 1 ≤ pat.length then
      rep ++ pyReplaceFuel pat rep fuel (cs.drop (pat.length - 1))
    else c :: pyReplaceFuel pat rep fuel cs

def pyReplaceCore (pat rep l : List Char) : List Char :=
  pyReplaceFuel pat rep l.length l

def pyReplace (s pat rep : String) : String :=
  ⟨pyReplaceCore pat.toList rep.toList s.toList⟩

/-! ## Filesystem model -/

inductive FSEntry where
  | file (content : String)
  | dir
deriving DecidableEq

/-- A filesystem: paths (in their string form) mapped to entries, in
directory-listing order. -/
structure FS where
  entries : List (String × FSEntry)
deriving DecidableEq

def FS.lookup (fs : FS) (p : String) : Option FSEntry :=
  (fs.entries.find? (fun e => e.1 == p)).map (fun e => e.2)

/-- `Path(p).exists()`. -/
def FS.existsPath (fs : FS) (p : String) : Bool := (fs.lookup p).isSome

/-- `Path(p).is_dir()`. -/
def FS.isDirPath (fs : FS) (p : String) : Bool :=
  match fs.lookup p with
  | some .dir => true
  | _ => false

/-- `Path(p).is_file()`. -/
def FS.isFilePath (fs : FS) (p : String) : Bool :=
  match fs.lookup p with
  | some (.file _) => true
  | _ => false

/-- `p` is an immediate child path of directory `d`: it extends `d ++ "/"`
by one nonempty component without a further separator. -/
def isChildName (d p : String) : Bool :=
  let prefixChars := d.toList ++ ['/']
  let rest := p.toList.drop prefixChars.length
  prefixChars.isPrefixOf p.toList && !rest.isEmpty && !rest.contains '/'

/-- `Path(d).iterdir()`: immediate children, in listing order. -/
def FS.iterdir (fs : FS) (d : String) : List String :=
  fs.entries.filterMap (fun e => if isChildName d e.1 then some e.1 else none)

/-- `open(p).read()`: the content of a regular file, or the exception the
open raises. -/
def FS.readFileE (fs : FS) (p : String) : Except String String :=
  match fs.lookup p with
  | some (.file c) => .ok c
  | some .dir => .error "IsADirectoryError"
  | none => .error "FileNotFoundError"

/-! ## `find_dataset_root` -/

/-- `find_dataset_root`: the extraction dir itself if it holds `data.yaml`,
else the first immediate child directory holding one, else
`FileNotFoundError`. -/
def find_dataset_root (fs : FS) (extract_dir : String) : Except String String :=
  if fs.existsPath (pathJoin extract_dir "data.yaml") then .ok extract_dir
  else
    match (fs.iterdir extract_dir).find?
        (fun item => fs.isDirPath item && fs.existsPath (pathJoin item "data.yaml")) with
    | some item => .ok item
    | none => .error ("No data.yaml in " ++ extract_dir)

/-! ## `validate_and_parse_dataset` -/

/-- The parsed `data.yaml` mapping as the source consumes it: the
recognized keys, each present or absent. -/
structure DataYaml where
  nc : Option Int
  names : Option (List String)
  train : Option String
  val : Option String
  test : Option String
deriving DecidableEq

/-- `split in data_yaml` / `data_yaml[split]` for the three walked names. -/
def DataYaml.splitPath (y : DataYaml) (s : String) : Option String :=
  if s = "train" then y.train
  else if s = "val" then y.val
  else if s = "test" then y.test
  else none

/-- External collaborators: YAML parser (`yaml.safe_load`), OSS upload
(`upload_image_to_oss`, which swallows every exception and returns a
Bool), and PIL dimension introspection (`none` models a failing
`Image.open`). -/
structure Env where
  yamlParse : String → Except String DataYaml
  upload : String → String → String → Bool
  dims : String → Option (Nat × Nat)

structure ImageDoc where
  dataset_id : String
  filename : String
  split : String
  width : Nat
  height : Nat
  annotations : List AnnotationRecord
deriving DecidableEq

structure DatasetDoc where
  _id : String
  name : String
  status : String
  nc : Int
  names : List String
  splits : List String
deriving DecidableEq

/-- Extensions accepted by the image loop. -/
def imageExts : List String := [".jpg", ".jpeg", ".png"]

/-- The annotations the per-image body derives from a label path: the
parsed content when the path is a regular file, the empty sequence when it
is absent (the directory case makes the body raise instead). -/
def readLabels (fs : FS) (p : String) : List AnnotationRecord :=
  match fs.lookup p with
  | some (.file c) => parseLabelContent c
  | _ => []

/-- The per-image body of the split walk: upload (result discarded), read
and parse the correlated label file, introspect dimensions, build the
image document. -/
def processImage (env : Env) (fs : FS) (dataset_id split label_dir img_path : String) :
    Except String ImageDoc :=
  let fname := baseName img_path
  let _ := env.upload img_path dataset_id fname
  let label_path := pathJoin label_dir (pyStem img_path ++ ".txt")
  match fs.lookup label_path with
  | some .dir => .error "IsADirectoryError"
  | some (.file c) =>
    let wh := (env.dims img_path).getD (0, 0)
    .ok { dataset_id := dataset_id, filename := fname, split := split,
          width := wh.1, height := wh.2, annotations := parseLabelContent c }
  | none =>
    let wh := (env.dims img_path).getD (0, 0)
    .ok { dataset_id := dataset_id, filename := fname, split := split,
          width := wh.1, height := wh.2, annotations := [] }

/-- The `for img_path in img_dir.iterdir()` loop: skip directories and
non-image extensions, process the rest in order. -/
def processImages (env : Env) (fs : FS) (dataset_id split label_dir : String) :
    List String → List ImageDoc → Except String (List ImageDoc)
  | [], acc => .ok acc
  | p :: ps, acc =>
    if fs.isDirPath p || !(imageExts.contains (pyLower (pySuffix p))) then
      processImages env fs dataset_id split label_dir ps acc
    else
      match processImage env fs dataset_id split label_dir p with
      | .error e => .error e
      | .ok d => processImages env fs dataset_id split label_dir ps (acc ++ [d])

/-- `root_path / img_rel_path if not Path(img_rel_path).is_absolute() else
Path(img_rel_path)`. -/
def resolveImgDir (root rel : String) : String :=
  if isAbsolute rel then rel else pathJoin root rel

/-- The body of the per-split loop after the split name is recorded:
resolve the image dir, derive the label dir textually, skip silently if
the image dir does not exist, else walk it. -/
def processSplit (env : Env) (fs : FS) (root dataset_id split rel : String) :
    Except String (List ImageDoc) :=
  let img_dir := resolveImgDir root rel
  let label_dir := pyReplace img_dir "images" "labels"
  if !(fs.existsPath img_dir) then .ok []
  else if !(fs.isDirPath img_dir) then .error "NotADirectoryError"
  else processImages env fs dataset_id split label_dir (fs.iterdir img_dir) []

def splitNames : List String := ["train", "val", "test"]

/-- The `for split in ["train", "val", "test"]` loop.  A declared split is
appended to `splits` before its directory is examined. -/
def processSplits (env : Env) (fs : FS) (root dataset_id : String) (y : DataYaml) :
    List String → DatasetDoc → List ImageDoc → Except String (DatasetDoc × List ImageDoc)
  | [], doc, docs => .ok (doc, docs)
  | s :: ss, doc, docs =>
    match y.splitPath s with
    | none => processSplits env fs root dataset_id y ss doc docs
    | some rel =>
      match processSplit env fs root dataset_id s rel with
      | .error e => .error e
      | .ok ds =>
        processSplits env fs root dataset_id y ss
          { doc with splits := doc.splits ++ [s] } (docs ++ ds)

/-- `validate_and_parse_dataset`: check and read `data.yaml`, parse it,
seed the dataset document, walk the splits. -/
def validate_and_parse_dataset (env : Env) (fs : FS)
    (root_dir dataset_id original_filename : String) :
    Except String (DatasetDoc × List ImageDoc) :=
  let data_yaml_path := pathJoin root_dir "data.yaml"
  if !(fs.existsPath data_yaml_path) then .error "data.yaml not found"
  else
    match fs.readFileE data_yaml_path with
    | .error e => .error e
    | .ok content =>
      match env.yamlParse content with
      | .error e => .error e
      | .ok y =>
        processSplits env fs root_dir dataset_id y splitNames
          { _id := dataset_id, name := original_filename, status := "ready",
            nc := y.nc.getD 0, names := y.names.getD [], splits := [] } []

/-! ## Document store model -/

/-- One document of the `datasets` collection; absent fields are `none`. -/
structure DatasetRec where
  name : Option String
  status : Option String
  created_at : Option Nat
  nc : Option Int
  names : Option (List String)
  splits : Option (List String)
  processed_at : Option Nat
  error : Option String
deriving DecidableEq

def emptyRec : DatasetRec :=
  { name := none, status := none, created_at := none, nc := none,
    names := none, splits := none, processed_at := none, error := none }

structure DB where
  datasets : List (String × DatasetRec)
  images : List ImageDoc
deriving DecidableEq

/-- `str(e)[:500]`: character slicing. -/
def pyTruncate (s : String) (n : Nat) : String := ⟨s.toList.take n⟩

def dbFind (l : List (String × DatasetRec)) (id : String) : Option DatasetRec :=
  (l.find? (fun e => e.1 == id)).map (fun e => e.2)

/-- `update_one`: rewrite the first document matching the id filter. -/
def updateFirst (l : List (String × DatasetRec)) (id : String)
    (f : DatasetRec → DatasetRec) : List (String × DatasetRec) :=
  match l with
  | [] => []
  | e :: t => if e.1 == id then (e.1, f e.2) :: t else e :: updateFirst t id f

/-- `insert_one` on `datasets`: duplicate `_id` raises. -/
def dbInsertDataset (db : DB) (id : String) (r : DatasetRec) : Except String DB :=
  if (dbFind db.datasets id).isSome then .error "E11000 duplicate key error"
  else .ok { db with datasets := db.datasets ++ [(id, r)] }

def setFailed (err : String) (r : DatasetRec) : DatasetRec :=
  { r with status := some "failed", error := some err }

/-- The `update_one(..., upsert=True)` of the except branch. -/
def dbMarkFailed (db : DB) (id err : String) : DB :=
  if (dbFind db.datasets id).isSome then
    { db with datasets := updateFirst db.datasets id (setFailed err) }
  else
    { db with datasets := db.datasets ++ [(id, setFailed err emptyRec)] }

def setReady (nc : Int) (nm splits : List String) (t : Nat) (r : DatasetRec) : DatasetRec :=
  { r with status := some "ready", nc := some nc, names := some nm,
           splits := some splits, processed_at := some t }

/-- The success-path `update_one` (no upsert). -/
def dbMarkReady (db : DB) (id : String) (nc : Int) (nm splits : List String) (t : Nat) : DB :=
  { db with datasets := updateFirst db.datasets id (setReady nc nm splits t) }

/-! ## `process_dataset` -/

/-- Per-job oracles: the pipeline environment, the outcome of the OSS
download, the outcome of the ZIP extraction (the resulting scratch tree),
and the two `datetime.utcnow()` readings. -/
structure JobEnv where
  env : Env
  download : Except String Unit
  extract : Except String FS
  t0 : Nat
  t1 : Nat

def tmpDir : String := "/tmp/job"

def extractDir : String := pathJoin tmpDir "extracted"

/-- The body of the `with tempfile.TemporaryDirectory()` block: download,
extract, locate the root, validate and parse. -/
def runPipeline (j : JobEnv) (dataset_id original_filename : String) :
    Except String (DatasetDoc × List ImageDoc) :=
  match j.download with
  | .error e => .error e
  | .ok _ =>
    match j.extract with
    | .error e => .error e
    | .ok fs =>
      match find_dataset_root fs extractDir with
      | .error e => .error e
      | .ok root => validate_and_parse_dataset j.env fs root dataset_id original_filename

/-- `process_dataset`: derive the dataset id (outside the try block),
insert the `processing` document, run the pipeline, record `ready` plus
the image documents, or on any exception record `failed` with the
truncated message and re-raise. -/
def process_dataset (j : JobEnv) (object_key original_filename : String) (db : DB) :
    Except String String × DB :=
  match (pySplitSepS object_key '/').get? 1 with
  | none => (.error "list index out of range", db)
  | some dataset_id =>
    match dbInsertDataset db dataset_id
        { name := some original_filename, status := some "processing",
          created_at := some j.t0, nc := none, names := none, splits := none,
          processed_at := none, error := none } with
    | .error e => (.error e, dbMarkFailed db dataset_id (pyTruncate e 500))
    | .ok db1 =>
      match runPipeline j dataset_id original_filename with
      | .error e => (.error e, dbMarkFailed db1 dataset_id (pyTruncate e 500))
      | .ok r =>
        let db2 := dbMarkReady db1 dataset_id r.1.nc r.1.names r.1.splits j.t1
        let db3 := if r.2.isEmpty then db2 else { db2 with images := db2.images ++ r.2 }
        (.ok "success", db3)

instance {ε α : Type} [DecidableEq ε] [DecidableEq α] : DecidableEq (Except ε α) := fun a b =>
  match a, b with
  | .error e₁, .error e₂ =>
    if h : e₁ = e₂ then .isTrue (by rw [h])
    else .isFalse (by intro hh; cases hh; exact h rfl)
  | .error _, .ok _ => .isFalse (by intro hh; cases hh)
  | .ok _, .error _ => .isFalse (by intro hh; cases hh)
  | .ok a₁, .ok a₂ =>
    if h : a₁ = a₂ then .isTrue (by rw [h])
    else .isFalse (by intro hh; cases hh; exact h rfl)

/-! ## Concrete fixtures used by witnesses and counterexamples -/

/-- A benign environment: YAML parsing unused, uploads succeed, dimensions 4×3. -/
def wEnv : Env :=
  { yamlParse := fun _ => .error "unused", upload := fun _ _ _ => true,
    dims := fun _ => some (4, 3) }

def wFs7 : FS := ⟨[("/r/images/train/a.jpg", .file "IMG")]⟩

def wFs8 : FS :=
  ⟨[("/r/labels/train/a.txt", .file "2 0.5 0.5 0.2 0.3"),
    ("/r/images/train/a.jpg", .file "IMG")]⟩

def wFs8b : FS :=
  ⟨[("/r/junk.bin", .file "JUNK"),
    ("/r/labels/train/a.txt", .file "2 0.5 0.5 0.2 0.3")]⟩

/-- The parsed manifest of the C1 scenario: `train` declared, its directory
absent from the scratch tree. -/
def cYaml : DataYaml :=
  { nc := some 1, names := some ["c"], train := some "images/train",
    val := none, test := none }

def cEnv : Env :=
  { yamlParse := fun _ => .ok cYaml, upload := fun _ _ _ => true,
    dims := fun _ => none }

def cFs : FS := ⟨[("/r/data.yaml", .file "Y")]⟩

/-- What `validate_and_parse_dataset` returns in the C1 scenario. -/
def cDoc : DatasetDoc :=
  { _id := "d", name := "f.zip", status := "ready", nc := 1,
    names := ["c"], splits := ["train"] }

/-- Extraction tree with the manifest at depth 0. -/
def wFsD0 : FS := ⟨[("/e/data.yaml", .file "Y")]⟩

/-- Extraction tree with the manifest at depth 1, preceded by a
non-matching file child and a non-matching directory child, and followed
by a second matching child that must lose to the first. -/
def wFsD1 : FS :=
  ⟨[("/e/junk.txt", .file "x"), ("/e/skip", .dir),
    ("/e/wrap", .dir), ("/e/wrap/data.yaml", .file "Y"),
    ("/e/wrap2", .dir), ("/e/wrap2/data.yaml", .file "Y")]⟩

/-- Extraction tree whose only manifest sits at depth 2: never found. -/
def wFsD2 : FS :=
  ⟨[("/e/a", .dir), ("/e/a/b", .dir), ("/e/a/b/data.yaml", .file "Y")]⟩

/-- Happy-path scenario: one declared split, two image files, one label
file, one non-image file and one subdirectory to be skipped. -/
def wFs9 : FS :=
  ⟨[("/r/data.yaml", .file "Y"),
    ("/r/images", .dir),
    ("/r/images/train", .dir),
    ("/r/images/train/a.jpg", .file "IMG"),
    ("/r/images/train/notes.txt", .file "T"),
    ("/r/images/train/sub", .dir),
    ("/r/images/train/b.PNG", .file "IMG2"),
    ("/r/labels", .dir),
    ("/r/labels/train", .dir),
    ("/r/labels/train/a.txt", .file "2 0.5 0.5 0.2 0.3\nbad\n")]⟩

/-- The first image document the `train` walk of `wFs9` produces. -/
def wDoc9a : ImageDoc :=
  { dataset_id := "d", filename := "a.jpg", split := "train", width := 4, height := 3,
    annotations := [⟨2, [.finite (mkRat 1 2), .finite (mkRat 1 2),
                         .finite (mkRat 1 5), .finite (mkRat 3 10)]⟩] }

/-- The image documents the `train` walk of `wFs9` produces. -/
def wDocs9 : List ImageDoc :=
  [wDoc9a,
   { dataset_id := "d", filename := "b.PNG", split := "train", width := 4, height := 3,
     annotations := [] }]

/-- A job whose OSS download fails. -/
def jW : JobEnv :=
  { env := wEnv, download := .error "boom", extract := .ok wFs9, t0 := 1, t1 := 2 }

def db0 : DB := ⟨[], []⟩

/-! ## General lemmas -/

theorem foldl_appendParsed (ls : List String) (acc : List AnnotationRecord) :
    ls.foldl appendParsed acc = acc ++ ls.filterMap parseLabelLine := by
  induction ls generalizing acc with
  | nil => simp
  | cons x xs ih =>
    cases h : parseLabelLine x <;> simp [appendParsed, List.filterMap_cons, h, ih]

theorem parseLine_core (t0 t1 t2 t3 t4 : String) (a : AnnotationRecord) :
    ((match pyInt? t0, mapFloat? [t1, t2, t3, t4] with
      | some cls, some bbox => some (⟨cls, bbox⟩ : AnnotationRecord)
      | _, _ => none) = some a ↔
      ∃ n q1 q2 q3 q4, pyInt? t0 = some n ∧ pyFloat? t1 = some q1 ∧
        pyFloat? t2 = some q2 ∧ pyFloat? t3 = some q3 ∧ pyFloat? t4 = some q4 ∧
        a = ⟨n, [q1, q2, q3, q4]⟩) := by
  cases h0 : pyInt? t0 <;> cases h1 : pyFloat? t1 <;> cases h2 : pyFloat? t2 <;>
    cases h3 : pyFloat? t3 <;> cases h4 : pyFloat? t4 <;>
      simp [mapFloat?, h0, h1, h2, h3, h4, eq_comm]

/-! ## Claim theorems -/

/-- C3: a line of a label file produces an `AnnotationRecord` iff it has at
least 5 whitespace-separated tokens, token 0 parses as an integer and
tokens 1–4 parse as floats, the surviving record being
`{class_id := int(token0), bbox := floats}`; and the whole-file parse is
the `filterMap` of the per-line parse over the lines, so a failing line is
dropped without error and without aborting the remaining lines. -/
theorem labelLine_survives_iff (line : String) (a : AnnotationRecord) (content : String) :
    (parseLabelLine line = some a ↔
      5 ≤ (pySplitWs (pyStrip line)).length ∧
      ∃ n q1 q2 q3 q4,
        pyInt? ((pySplitWs (pyStrip line)).getD 0 "") = some n ∧
        pyFloat? ((pySplitWs (pyStrip line)).getD 1 "") = some q1 ∧
        pyFloat? ((pySplitWs (pyStrip line)).getD 2 "") = some q2 ∧
        pyFloat? ((pySplitWs (pyStrip line)).getD 3 "") = some q3 ∧
        pyFloat? ((pySplitWs (pyStrip line)).getD 4 "") = some q4 ∧
        a = ⟨n, [q1, q2, q3, q4]⟩) ∧
    parseLabelContent content = (pyLinesStr content).filterMap parseLabelLine := by
  constructor
  · have key : ∀ (parts : List String),
        ((if 5 ≤ parts.length then
            match pyInt? (parts.getD 0 ""), mapFloat? ((parts.drop 1).take 4) with
            | some cls, some bbox => some (⟨cls, bbox⟩ : AnnotationRecord)
            | _, _ => none
          else none) = some a ↔
          5 ≤ parts.length ∧
          ∃ n q1 q2 q3 q4,
            pyInt? (parts.getD 0 "") = some n ∧
            pyFloat? (parts.getD 1 "") = some q1 ∧
            pyFloat? (parts.getD 2 "") = some q2 ∧
            pyFloat? (parts.getD 3 "") = some q3 ∧
            pyFloat? (parts.getD 4 "") = some q4 ∧
            a = ⟨n, [q1, q2, q3, q4]⟩) := by
      intro parts
      by_cases h5 : 5 ≤ parts.length
      · obtain ⟨t0, l1, rfl⟩ : ∃ x l, parts = x :: l := by
          cases parts with
          | nil => simp only [List.length_nil] at h5; omega
          | cons x l => exact ⟨x, l, rfl⟩
        obtain ⟨t1, l2, rfl⟩ : ∃ x l, l1 = x :: l := by
          cases l1 with
          | nil => simp only [List.length_cons, List.length_nil] at h5; omega
          | cons x l => exact ⟨x, l, rfl⟩
        obtain ⟨t2, l3, rfl⟩ : ∃ x l, l2 = x :: l := by
          cases l2 with
          | nil => simp only [List.length_cons, List.length_nil] at h5; omega
          | cons x l => exact ⟨x, l, rfl⟩
        obtain ⟨t3, l4, rfl⟩ : ∃ x l, l3 = x :: l := by
          cases l3 with
          | nil => simp only [List.length_cons, List.length_nil] at h5; omega
          | cons x l => exact ⟨x, l, rfl⟩
        obtain ⟨t4, rest, rfl⟩ : ∃ x l, l4 = x :: l := by
          cases l4 with
          | nil => simp only [List.length_cons, List.length_nil] at h5; omega
          | cons x l => exact ⟨x, l, rfl⟩
        have ed : (((t0 :: t1 :: t2 :: t3 :: t4 :: rest)).drop 1).take 4 = [t1, t2, t3, t4] := rfl
        rw [if_pos h5, ed]
        have e0 : ((t0 :: t1 :: t2 :: t3 :: t4 :: rest)).getD 0 "" = t0 := rfl
        have e1 : ((t0 :: t1 :: t2 :: t3 :: t4 :: rest)).getD 1 "" = t1 := rfl
        have e2 : ((t0 :: t1 :: t2 :: t3 :: t4 :: rest)).getD 2 "" = t2 := rfl
        have e3 : ((t0 :: t1 :: t2 :: t3 :: t4 :: rest)).getD 3 "" = t3 := rfl
        have e4 : ((t0 :: t1 :: t2 :: t3 :: t4 :: rest)).getD 4 "" = t4 := rfl
        rw [e0, e1, e2, e3, e4]
        simp only [h5, true_and]
        exact parseLine_core t0 t1 t2 t3 t4 a
      · rw [if_neg h5]
        simp [h5]
    exact key (pySplitWs (pyStrip line))
  · unfold parseLabelContent
    rw [foldl_appendParsed]
    simp

/-- C7: a missing label file yields an empty annotation sequence and no
error: the per-image body returns the image document with
`annotations = []`. -/
theorem missing_label_file_empty_annotations (env : Env) (fs : FS)
    (dataset_id split label_dir img_path : String)
    (h : fs.existsPath (pathJoin label_dir (pyStem img_path ++ ".txt")) = false) :
    processImage env fs dataset_id split label_dir img_path =
      .ok { dataset_id := dataset_id, filename := baseName img_path, split := split,
            width := ((env.dims img_path).getD (0, 0)).1,
            height := ((env.dims img_path).getD (0, 0)).2,
            annotations := [] } := by
  have hl : fs.lookup (pathJoin label_dir (pyStem img_path ++ ".txt")) = none := by
    cases hx : fs.lookup (pathJoin label_dir (pyStem img_path ++ ".txt")) with
    | none => rfl
    | some v => rw [FS.existsPath, hx] at h; simp at h
  simp [processImage, hl]

theorem missing_label_file_empty_annotations_witness :
    wFs7.existsPath (pathJoin "/r/labels/train" (pyStem "/r/images/train/a.jpg" ++ ".txt")) = false ∧
    processImage wEnv wFs7 "d" "train" "/r/labels/train" "/r/images/train/a.jpg" =
      .ok { dataset_id := "d", filename := "a.jpg", split := "train",
            width := 4, height := 3, annotations := [] } :=
  ⟨by decide,
   missing_label_file_empty_annotations wEnv wFs7 "d" "train" "/r/labels/train"
     "/r/images/train/a.jpg" (by decide)⟩

/-- C8: annotation parsing is a pure function of the label file's content:
two filesystems agreeing on the label path give the per-image body
identical results (in particular, parsing the same content twice yields
identical annotation sequences). -/
theorem annotation_parsing_pure (env : Env) (fs fs' : FS)
    (dataset_id split label_dir img_path : String)
    (h : fs.lookup (pathJoin label_dir (pyStem img_path ++ ".txt")) =
         fs'.lookup (pathJoin label_dir (pyStem img_path ++ ".txt"))) :
    processImage env fs dataset_id split label_dir img_path =
      processImage env fs' dataset_id split label_dir img_path := by
  simp only [processImage, h]

theorem annotation_parsing_pure_witness :
    processImage wEnv wFs8 "d" "train" "/r/labels/train" "/r/images/train/a.jpg" =
      processImage wEnv wFs8b "d" "train" "/r/labels/train" "/r/images/train/a.jpg" :=
  annotation_parsing_pure wEnv wFs8 wFs8b "d" "train" "/r/labels/train"
    "/r/images/train/a.jpg" (by decide)

theorem processImage_upload_congr (e : Env) (u₁ u₂ : String → String → String → Bool)
    (fs : FS) (dataset_id split label_dir p : String) :
    processImage { e with upload := u₁ } fs dataset_id split label_dir p =
      processImage { e with upload := u₂ } fs dataset_id split label_dir p := rfl

theorem processImages_upload_congr (e : Env) (u₁ u₂ : String → String → String → Bool)
    (fs : FS) (dataset_id split label_dir : String) :
    ∀ (ps : List String) (acc : List ImageDoc),
      processImages { e with upload := u₁ } fs dataset_id split label_dir ps acc =
        processImages { e with upload := u₂ } fs dataset_id split label_dir ps acc := by
  intro ps
  induction ps with
  | nil => intro acc; rfl
  | cons p ps ih =>
    intro acc
    unfold processImages
    by_cases hc : (fs.isDirPath p || !(imageExts.contains (pyLower (pySuffix p)))) = true
    · rw [if_pos hc, if_pos hc]; exact ih acc
    · rw [if_neg hc, if_neg hc, processImage_upload_congr e u₁ u₂]
      cases processImage { e with upload := u₂ } fs dataset_id split label_dir p with
      | error msg => rfl
      | ok d => exact ih (acc ++ [d])

theorem processSplit_upload_congr (e : Env) (u₁ u₂ : String → String → String → Bool)
    (fs : FS) (root dataset_id split rel : String) :
    processSplit { e with upload := u₁ } fs root dataset_id split rel =
      processSplit { e with upload := u₂ } fs root dataset_id split rel := by
  unfold processSplit
  by_cases h1 : (!(fs.existsPath (resolveImgDir root rel))) = true
  · rw [if_pos h1, if_pos h1]
  · rw [if_neg h1, if_neg h1]
    by_cases h2 : (!(fs.isDirPath (resolveImgDir root rel))) = true
    · rw [if_pos h2, if_pos h2]
    · rw [if_neg h2, if_neg h2]
      exact processImages_upload_congr e u₁ u₂ fs dataset_id split _ _ []

theorem processSplits_upload_congr (e : Env) (u₁ u₂ : String → String → String → Bool)
    (fs : FS) (root dataset_id : String) (y : DataYaml) :
    ∀ (ss : List String) (doc : DatasetDoc) (docs : List ImageDoc),
      processSplits { e with upload := u₁ } fs root dataset_id y ss doc docs =
        processSplits { e with upload := u₂ } fs root dataset_id y ss doc docs := by
  intro ss
  induction ss with
  | nil => intro doc docs; rfl
  | cons s ss ih =>
    intro doc docs
    cases h : y.splitPath s with
    | none => simp only [processSplits, h]; exact ih doc docs
    | some rel =>
      simp only [processSplits, h]
      rw [processSplit_upload_congr e u₁ u₂]
      cases processSplit { e with upload := u₂ } fs root dataset_id s rel with
      | error msg => rfl
      | ok ds => exact ih _ _

/-- C5: the per-image OSS publish step cannot affect the outcome of the
split walk: `validate_and_parse_dataset` returns literally the same value
whatever the upload oracle answers (so a publish failure aborts nothing),
and the per-image body yields the same image document — with its parsed
annotations — regardless of the publish result. -/
theorem upload_result_never_affects_output (e : Env)
    (u₁ u₂ : String → String → String → Bool) (fs : FS)
    (root_dir dataset_id original_filename : String) :
    validate_and_parse_dataset { e with upload := u₁ } fs root_dir dataset_id original_filename =
      validate_and_parse_dataset { e with upload := u₂ } fs root_dir dataset_id original_filename ∧
    ∀ split label_dir p,
      processImage { e with upload := u₁ } fs dataset_id split label_dir p =
        processImage { e with upload := u₂ } fs dataset_id split label_dir p := by
  constructor
  · unfold validate_and_parse_dataset
    by_cases h1 : (!(fs.existsPath (pathJoin root_dir "data.yaml"))) = true
    · rw [if_pos h1, if_pos h1]
    · rw [if_neg h1, if_neg h1,
        show ({ e with upload := u₁ } : Env).yamlParse = e.yamlParse from rfl,
        show ({ e with upload := u₂ } : Env).yamlParse = e.yamlParse from rfl]
      split
      · rfl
      · split
        · rfl
        · exact processSplits_upload_congr e u₁ u₂ fs root_dir dataset_id _ splitNames _ []
  · intro split label_dir p
    exact processImage_upload_congr e u₁ u₂ fs dataset_id split label_dir p

theorem find_first_match {α : Type} (p : α → Bool) :
    ∀ (pre : List α) (c : α) (post : List α),
      (∀ c' ∈ pre, p c' = false) → p c = true →
      (pre ++ c :: post).find? p = some c := by
  intro pre
  induction pre with
  | nil => intro c post _ hc; simp [List.find?, hc]
  | cons x xs ih =>
    intro c post hpre hc
    have hx : p x = false := hpre x (by simp)
    rw [List.cons_append]
    simp only [List.find?, hx]
    exact ih c post (fun c' h => hpre c' (by simp [h])) hc

/-- C4: `find_dataset_root` returns the extraction directory itself when
`data.yaml` sits directly in it; otherwise the first immediate child (in
listing order) that is a directory containing `data.yaml`; and when no
depth-0 or depth-1 manifest exists it raises, whatever deeper descendants
the tree has. -/
theorem find_dataset_root_cases (fs : FS) (d : String) :
    (fs.existsPath (pathJoin d "data.yaml") = true → find_dataset_root fs d = .ok d) ∧
    (fs.existsPath (pathJoin d "data.yaml") = false →
      ∀ pre c post, fs.iterdir d = pre ++ c :: post →
        (∀ c' ∈ pre, (fs.isDirPath c' && fs.existsPath (pathJoin c' "data.yaml")) = false) →
        fs.isDirPath c = true → fs.existsPath (pathJoin c "data.yaml") = true →
        find_dataset_root fs d = .ok c) ∧
    (fs.existsPath (pathJoin d "data.yaml") = false →
      (∀ c ∈ fs.iterdir d, (fs.isDirPath c && fs.existsPath (pathJoin c "data.yaml")) = false) →
      find_dataset_root fs d = .error ("No data.yaml in " ++ d)) := by
  refine ⟨?_, ?_, ?_⟩
  · intro h
    simp [find_dataset_root, h]
  · intro h pre c post hiter hpre hdir hman
    have hfind : (fs.iterdir d).find?
        (fun item => fs.isDirPath item && fs.existsPath (pathJoin item "data.yaml")) = some c := by
      rw [hiter]
      exact find_first_match _ pre c post hpre (by simp [hdir, hman])
    simp [find_dataset_root, h, hfind]
  · intro h hall
    have hfind : (fs.iterdir d).find?
        (fun item => fs.isDirPath item && fs.existsPath (pathJoin item "data.yaml")) = none :=
      List.find?_eq_none.mpr (by intro x hx; simp [hall x hx])
    simp [find_dataset_root, h, hfind]

theorem find_dataset_root_cases_witness :
    find_dataset_root wFsD0 "/e" = .ok "/e" ∧
    find_dataset_root wFsD1 "/e" = .ok "/e/wrap" ∧
    find_dataset_root wFsD2 "/e" = .error ("No data.yaml in " ++ "/e") :=
  ⟨(find_dataset_root_cases wFsD0 "/e").1 (by decide),
   (find_dataset_root_cases wFsD1 "/e").2.1 (by decide)
     ["/e/junk.txt", "/e/skip"] "/e/wrap" ["/e/wrap2"]
     (by decide) (by decide) (by decide) (by decide),
   (find_dataset_root_cases wFsD2 "/e").2.2 (by decide) (by decide)⟩

theorem splitSepAux_no_sep (sep : Char) :
    ∀ (cs tok : List Char), (∀ c ∈ cs, c ≠ sep) →
      splitSepAux sep tok cs = [tok.reverse ++ cs] := by
  intro cs
  induction cs with
  | nil => intro tok _; simp [splitSepAux]
  | cons c cs ih =>
    intro tok h
    have hc : (c == sep) = false := by
      have := h c (by simp)
      simp [this]
    unfold splitSepAux
    rw [if_neg (by simp [hc])]
    rw [ih (c :: tok) (fun x hx => h x (by simp [hx]))]
    simp

theorem splitSepAux_ne_nil (sep : Char) :
    ∀ (cs tok : List Char), splitSepAux sep tok cs ≠ [] := by
  intro cs
  induction cs with
  | nil => intro tok; simp [splitSepAux]
  | cons c cs ih =>
    intro tok
    unfold splitSepAux
    by_cases h : (c == sep) = true
    · rw [if_pos h]; simp
    · rw [if_neg h]; exact ih (c :: tok)

theorem splitSepAux_mem_no_sep (sep : Char) :
    ∀ (cs tok : List Char), (∀ c ∈ tok, c ≠ sep) →
      ∀ l ∈ splitSepAux sep tok cs, ∀ c ∈ l, c ≠ sep := by
  intro cs
  induction cs with
  | nil =>
    intro tok htok l hl c hc
    simp [splitSepAux] at hl
    subst hl
    exact htok c (by simpa using hc)
  | cons x cs ih =>
    intro tok htok l hl c hc
    rw [show splitSepAux sep tok (x :: cs) =
        if (x == sep) = true then tok.reverse :: splitSepAux sep [] cs
        else splitSepAux sep (x :: tok) cs from by simp only [splitSepAux]] at hl
    by_cases hx : (x == sep) = true
    · rw [if_pos hx] at hl
      rcases List.mem_cons.mp hl with rfl | hl
      · exact htok c (by simpa using hc)
      · exact ih [] (by simp) l hl c hc
    · rw [if_neg hx] at hl
      have hx' : x ≠ sep := by simpa using hx
      refine ih (x :: tok) ?_ l hl c hc
      intro c' hc'
      rcases List.mem_cons.mp hc' with rfl | hc'
      · exact hx'
      · exact htok c' hc'

theorem getLastD_mem {α : Type} : ∀ (L : List α) (d : α), L ≠ [] → L.getLastD d ∈ L
  | [], _, h => absurd rfl h
  | [x], d, _ => by simp [List.getLastD]
  | x :: y :: ys, d, _ => by
    have he : (x :: y :: ys).getLastD d = (y :: ys).getLastD x := rfl
    rw [he]
    exact List.mem_cons_of_mem x (getLastD_mem (y :: ys) x (by simp))

theorem baseName_no_sep (p : String) : ∀ c ∈ (baseName p).toList, c ≠ '/' := by
  have hne : splitSepAux '/' [] p.toList ≠ [] := splitSepAux_ne_nil '/' p.toList []
  have hmem : baseName p ∈ (splitSepAux '/' [] p.toList).map (fun l => (⟨l⟩ : String)) := by
    unfold baseName pySplitSepS
    exact getLastD_mem _ _ (by simpa using hne)
  obtain ⟨l, hlL, heq⟩ := List.mem_map.mp hmem
  intro c hc
  rw [← heq] at hc
  exact splitSepAux_mem_no_sep '/' p.toList [] (by simp) l hlL c hc

theorem baseName_of_no_sep (s : String) (h : ∀ c ∈ s.toList, c ≠ '/') : baseName s = s := by
  unfold baseName pySplitSepS
  rw [splitSepAux_no_sep '/' s.toList [] h]
  rfl

theorem baseName_idem (p : String) : baseName (baseName p) = baseName p :=
  baseName_of_no_sep (baseName p) (baseName_no_sep p)

theorem pyStem_baseName (p : String) : pyStem (baseName p) = pyStem p := by
  unfold pyStem
  rw [baseName_idem]

theorem isDir_exists (fs : FS) (p : String) (h : fs.isDirPath p = true) :
    fs.existsPath p = true := by
  unfold FS.isDirPath at h
  unfold FS.existsPath
  cases hl : fs.lookup p with
  | none => rw [hl] at h; simp at h
  | some e => simp [hl]

theorem iterdir_exists (fs : FS) (d p : String) (h : p ∈ fs.iterdir d) :
    fs.existsPath p = true := by
  unfold FS.iterdir at h
  obtain ⟨e, he, hef⟩ := List.mem_filterMap.mp h
  by_cases hc : isChildName d e.1 = true
  · rw [if_pos hc] at hef
    injection hef with hef
    subst hef
    unfold FS.existsPath FS.lookup
    cases hf : fs.entries.find? (fun x => x.1 == e.1) with
    | some v => simp [hf]
    | none =>
      have := List.find?_eq_none.mp hf e he
      simp at this
  · rw [if_neg hc] at hef
    cases hef

theorem keep_iff_file (fs : FS) (p : String) (hex : fs.existsPath p = true) :
    (!(fs.isDirPath p || !(imageExts.contains (pyLower (pySuffix p))))) =
      (fs.isFilePath p && imageExts.contains (pyLower (pySuffix p))) := by
  unfold FS.existsPath at hex
  unfold FS.isDirPath FS.isFilePath
  cases hl : fs.lookup p with
  | none => rw [hl] at hex; simp at hex
  | some e => cases e <;> simp

theorem processImage_ok_spec (env : Env) (fs : FS) (dataset_id split label_dir p : String)
    (d : ImageDoc) (h : processImage env fs dataset_id split label_dir p = .ok d) :
    d.dataset_id = dataset_id ∧ d.filename = baseName p ∧ d.split = split ∧
    d.annotations = readLabels fs (pathJoin label_dir (pyStem p ++ ".txt")) := by
  simp only [processImage] at h
  cases hl : fs.lookup (pathJoin label_dir (pyStem p ++ ".txt")) with
  | none =>
    rw [hl] at h
    have h' : Except.ok (ε := String)
        { dataset_id := dataset_id, filename := baseName p, split := split,
          width := ((env.dims p).getD (0, 0)).1, height := ((env.dims p).getD (0, 0)).2,
          annotations := ([] : List AnnotationRecord) } = .ok d := h
    injection h' with h'
    subst h'
    exact ⟨rfl, rfl, rfl, by simp [readLabels, hl]⟩
  | some e =>
    cases e with
    | dir =>
      rw [hl] at h
      have h' : Except.error (α := ImageDoc) "IsADirectoryError" = .ok d := h
      cases h'
    | file c =>
      rw [hl] at h
      have h' : Except.ok (ε := String)
          { dataset_id := dataset_id, filename := baseName p, split := split,
            width := ((env.dims p).getD (0, 0)).1, height := ((env.dims p).getD (0, 0)).2,
            annotations := parseLabelContent c } = .ok d := h
      injection h' with h'
      subst h'
      exact ⟨rfl, rfl, rfl, by simp [readLabels, hl]⟩

theorem processImages_mem (env : Env) (fs : FS) (dataset_id split label_dir : String) :
    ∀ (ps : List String) (acc docs : List ImageDoc),
      processImages env fs dataset_id split label_dir ps acc = .ok docs →
      ∀ d ∈ docs, d ∈ acc ∨ ∃ p, processImage env fs dataset_id split label_dir p = .ok d := by
  intro ps
  induction ps with
  | nil =>
    intro acc docs h d hd
    unfold processImages at h
    injection h with h'
    subst h'
    exact Or.inl hd
  | cons p ps ih =>
    intro acc docs h d hd
    unfold processImages at h
    by_cases hc : (fs.isDirPath p || !(imageExts.contains (pyLower (pySuffix p)))) = true
    · rw [if_pos hc] at h
      exact ih acc docs h d hd
    · rw [if_neg hc] at h
      cases hpi : processImage env fs dataset_id split label_dir p with
      | error msg => rw [hpi] at h; simp at h
      | ok d0 =>
        rw [hpi] at h
        rcases ih _ _ h d hd with hacc | hex
        · rcases List.mem_append.mp hacc with h1 | h2
          · exact Or.inl h1
          · right
            refine ⟨p, ?_⟩
            have hd0 : d = d0 := by simpa using h2
            rw [hd0]
            exact hpi
        · exact Or.inr hex

theorem processImages_filenames (env : Env) (fs : FS) (dataset_id split label_dir : String) :
    ∀ (ps : List String) (acc docs : List ImageDoc),
      processImages env fs dataset_id split label_dir ps acc = .ok docs →
      docs.map ImageDoc.filename =
        acc.map ImageDoc.filename ++
          (ps.filter
            (fun p => !(fs.isDirPath p || !(imageExts.contains (pyLower (pySuffix p)))))).map
            baseName := by
  intro ps
  induction ps with
  | nil =>
    intro acc docs h
    unfold processImages at h
    injection h with h'
    subst h'
    simp
  | cons p ps ih =>
    intro acc docs h
    unfold processImages at h
    by_cases hc : (fs.isDirPath p || !(imageExts.contains (pyLower (pySuffix p)))) = true
    · rw [if_pos hc] at h
      have hcond : ¬((!(fs.isDirPath p || !(imageExts.contains (pyLower (pySuffix p))))) = true) := by
        rw [hc]; simp
      rw [ih acc docs h, List.filter_cons, if_neg hcond]
    · rw [if_neg hc] at h
      cases hpi : processImage env fs dataset_id split label_dir p with
      | error msg => rw [hpi] at h; simp at h
      | ok d0 =>
        rw [hpi] at h
        have hb : (fs.isDirPath p || !(imageExts.contains (pyLower (pySuffix p)))) = false := by
          simpa using hc
        have hcond : (!(fs.isDirPath p || !(imageExts.contains (pyLower (pySuffix p))))) = true := by
          rw [hb]; simp
        have hd0 : d0.filename = baseName p :=
          (processImage_ok_spec env fs dataset_id split label_dir p d0 hpi).2.1
        rw [ih _ _ h, List.filter_cons, if_pos hcond]
        simp [hd0]

theorem processSplit_missing (env : Env) (fs : FS) (root dataset_id split rel : String)
    (h : fs.existsPath (resolveImgDir root rel) = false) :
    processSplit env fs root dataset_id split rel = .ok [] := by
  simp [processSplit, h]

theorem processSplit_ok_spec (env : Env) (fs : FS) (root dataset_id split rel : String)
    (ds : List ImageDoc) (h : processSplit env fs root dataset_id split rel = .ok ds) :
    ∀ d ∈ ds, d.dataset_id = dataset_id ∧ d.split = split ∧
      d.annotations = readLabels fs
        (pathJoin (pyReplace (resolveImgDir root rel) "images" "labels")
          (pyStem d.filename ++ ".txt")) := by
  intro d hd
  simp only [processSplit] at h
  by_cases h1 : (!(fs.existsPath (resolveImgDir root rel))) = true
  · rw [if_pos h1] at h
    injection h with h'
    subst h'
    simp at hd
  · rw [if_neg h1] at h
    by_cases h2 : (!(fs.isDirPath (resolveImgDir root rel))) = true
    · rw [if_pos h2] at h
      cases h
    · rw [if_neg h2] at h
      rcases processImages_mem env fs dataset_id split _ _ _ _ h d hd with hacc | ⟨p, hp⟩
      · simp at hacc
      · obtain ⟨hid, hfn, hsp, hann⟩ :=
          processImage_ok_spec env fs dataset_id split _ p d hp
        refine ⟨hid, hsp, ?_⟩
        rw [hann, hfn, pyStem_baseName]

/-- C6: for every image document a split walk produces, the label file it
consulted lives under the directory obtained by textually replacing
`images` with `labels` in the string form of the resolved image directory
(the declared path taken as-is when absolute, else joined to the root). -/
theorem label_dir_textual_replacement (env : Env) (fs : FS)
    (root dataset_id split rel : String) (ds : List ImageDoc)
    (h : processSplit env fs root dataset_id split rel = .ok ds) :
    ∀ d ∈ ds, d.annotations =
      readLabels fs
        (pathJoin (pyReplace (if isAbsolute rel then rel else pathJoin root rel) "images" "labels")
          (pyStem d.filename ++ ".txt")) := by
  intro d hd
  exact (processSplit_ok_spec env fs root dataset_id split rel ds h d hd).2.2

theorem label_dir_textual_replacement_witness :
    wDoc9a.annotations =
      readLabels wFs9
        (pathJoin
          (pyReplace (if isAbsolute "images/train" then "images/train"
                      else pathJoin "/r" "images/train") "images" "labels")
          (pyStem wDoc9a.filename ++ ".txt")) :=
  label_dir_textual_replacement wEnv wFs9 "/r" "d" "train" "images/train" wDocs9 (by decide)
    wDoc9a (by decide)

/-- C9: for a split whose resolved image directory exists as a directory,
the image documents produced are exactly (same order, same multiplicity)
the entries of that directory that are regular files whose lowercased
extension is `.jpg`, `.jpeg` or `.png`; subdirectories and other
extensions are silently skipped. -/
theorem image_record_iff_regular_image_file (env : Env) (fs : FS)
    (root dataset_id split rel : String) (ds : List ImageDoc)
    (hdir : fs.isDirPath (resolveImgDir root rel) = true)
    (h : processSplit env fs root dataset_id split rel = .ok ds) :
    ds.map ImageDoc.filename =
      ((fs.iterdir (resolveImgDir root rel)).filter
        (fun p => fs.isFilePath p && imageExts.contains (pyLower (pySuffix p)))).map
        baseName := by
  have hex : fs.existsPath (resolveImgDir root rel) = true :=
    isDir_exists fs _ hdir
  simp only [processSplit] at h
  rw [if_neg (by simp [hex]), if_neg (by simp [hdir])] at h
  rw [processImages_filenames env fs dataset_id split _ _ _ _ h]
  simp only [List.map_nil, List.nil_append]
  congr 1
  apply List.filter_congr
  intro p hp
  exact keep_iff_file fs p (iterdir_exists fs _ p hp)

theorem image_record_iff_regular_image_file_witness :
    (wDocs9.map ImageDoc.filename = ["a.jpg", "b.PNG"]) ∧
    wDocs9.map ImageDoc.filename =
      ((wFs9.iterdir (resolveImgDir "/r" "images/train")).filter
        (fun p => wFs9.isFilePath p && imageExts.contains (pyLower (pySuffix p)))).map
        baseName :=
  ⟨by decide,
   image_record_iff_regular_image_file wEnv wFs9 "/r" "d" "train" "images/train" wDocs9
     (by decide) (by decide)⟩

theorem splitPath_mem (y : DataYaml) (s rel : String) (h : y.splitPath s = some rel) :
    s ∈ splitNames := by
  unfold DataYaml.splitPath at h
  by_cases h1 : s = "train"
  · subst h1; simp [splitNames]
  · rw [if_neg h1] at h
    by_cases h2 : s = "val"
    · subst h2; simp [splitNames]
    · rw [if_neg h2] at h
      by_cases h3 : s = "test"
      · subst h3; simp [splitNames]
      · rw [if_neg h3] at h; cases h

theorem processSplits_missing_spec (env : Env) (fs : FS) (root dataset_id s rel : String)
    (y : DataYaml) (hdecl : y.splitPath s = some rel)
    (hmiss : fs.existsPath (resolveImgDir root rel) = false) :
    ∀ (ss : List String) (doc : DatasetDoc) (docs : List ImageDoc)
      (doc' : DatasetDoc) (docs' : List ImageDoc),
      processSplits env fs root dataset_id y ss doc docs = .ok (doc', docs') →
      (∀ d ∈ docs, d.split ≠ s) →
      ((s ∈ ss ∨ s ∈ doc.splits) → s ∈ doc'.splits) ∧ (∀ d ∈ docs', d.split ≠ s) := by
  intro ss
  induction ss with
  | nil =>
    intro doc docs doc' docs' h hdocs
    simp only [processSplits] at h
    injection h with h'
    obtain ⟨rfl, rfl⟩ : doc' = doc ∧ docs' = docs :=
      ⟨(congrArg Prod.fst h').symm, (congrArg Prod.snd h').symm⟩
    refine ⟨fun hs => ?_, hdocs⟩
    rcases hs with hs | hs
    · simp at hs
    · exact hs
  | cons s0 ss ih =>
    intro doc docs doc' docs' h hdocs
    cases hsp : y.splitPath s0 with
    | none =>
      simp only [processSplits, hsp] at h
      have hne : s ≠ s0 := by
        intro he
        rw [← he] at hsp
        rw [hdecl] at hsp
        cases hsp
      obtain ⟨h1, h2⟩ := ih doc docs doc' docs' h hdocs
      refine ⟨fun hs => h1 ?_, h2⟩
      rcases hs with hs | hs
      · rcases List.mem_cons.mp hs with hs | hs
        · exact absurd hs hne
        · exact Or.inl hs
      · exact Or.inr hs
    | some rel0 =>
      simp only [processSplits, hsp] at h
      by_cases he : s0 = s
      · subst he
        have hre : rel0 = rel := by
          rw [hdecl] at hsp
          injection hsp with hh
          exact hh.symm
        subst hre
        rw [processSplit_missing env fs root dataset_id s0 rel0 hmiss] at h
        have h' : processSplits env fs root dataset_id y ss
            { doc with splits := doc.splits ++ [s0] } (docs ++ []) = .ok (doc', docs') := h
        rw [List.append_nil] at h'
        obtain ⟨h1, h2⟩ := ih _ docs doc' docs' h' hdocs
        refine ⟨fun _ => h1 (Or.inr (by simp)), h2⟩
      · cases hps : processSplit env fs root dataset_id s0 rel0 with
        | error msg =>
          rw [hps] at h
          have h' : (Except.error msg : Except String (DatasetDoc × List ImageDoc)) =
              .ok (doc', docs') := h
          cases h'
        | ok ds =>
          rw [hps] at h
          have h' : processSplits env fs root dataset_id y ss
              { doc with splits := doc.splits ++ [s0] } (docs ++ ds) = .ok (doc', docs') := h
          have hds : ∀ d ∈ docs ++ ds, d.split ≠ s := by
            intro d hd
            rcases List.mem_append.mp hd with hd | hd
            · exact hdocs d hd
            · have hsp0 := (processSplit_ok_spec env fs root dataset_id s0 rel0 ds hps d hd).2.1
              rw [hsp0]
              intro hx
              exact he hx
          obtain ⟨h1, h2⟩ := ih _ _ doc' docs' h' hds
          refine ⟨fun hs => h1 ?_, h2⟩
          rcases hs with hs | hs
          · rcases List.mem_cons.mp hs with hs | hs
            · exact absurd hs.symm he
            · exact Or.inl hs
          · exact Or.inr (by simp [hs])

/-- C1 counterexample: in a concrete run the declared `train` split's
resolved image directory does not exist, the split is skipped without
error, and yet `train` appears in the recorded `splits` sequence — the
claim's "its name does not appear in the recorded `splits` sequence" is
false on the code (the name is appended before the existence check). -/
theorem missing_dir_split_in_splits_counterexample :
    cFs.existsPath (resolveImgDir "/r" "images/train") = false ∧
    validate_and_parse_dataset cEnv cFs "/r" "d" "f.zip" = .ok (cDoc, []) ∧
    "train" ∈ cDoc.splits :=
  ⟨by decide, by decide, by decide⟩

/-- C1 (amended): a declared split whose resolved image directory does not
exist is skipped without error — its walk returns no image documents and
raises nothing — but, contrary to the claim, its name DOES appear in the
recorded `splits` sequence of the returned dataset document. -/
theorem declared_split_missing_dir_recorded (env : Env) (fs : FS)
    (root dataset_id original_filename s rel content : String) (y : DataYaml)
    (doc : DatasetDoc) (docs : List ImageDoc)
    (hread : fs.readFileE (pathJoin root "data.yaml") = .ok content)
    (hparse : env.yamlParse content = .ok y)
    (hdecl : y.splitPath s = some rel)
    (hmiss : fs.existsPath (resolveImgDir root rel) = false)
    (hok : validate_and_parse_dataset env fs root dataset_id original_filename =
      .ok (doc, docs)) :
    s ∈ doc.splits ∧ (∀ d ∈ docs, d.split ≠ s) ∧
    processSplit env fs root dataset_id s rel = .ok [] := by
  have hex : fs.existsPath (pathJoin root "data.yaml") = true := by
    unfold FS.readFileE at hread
    unfold FS.existsPath
    cases hl : fs.lookup (pathJoin root "data.yaml") with
    | none =>
      rw [hl] at hread
      have h' : (Except.error "FileNotFoundError" : Except String String) = .ok content := hread
      cases h'
    | some e => simp [hl]
  simp only [validate_and_parse_dataset] at hok
  rw [if_neg (by simp [hex]), hread] at hok
  have hok2 : (match env.yamlParse content with
      | .error e => (.error e : Except String (DatasetDoc × List ImageDoc))
      | .ok yy =>
        processSplits env fs root dataset_id yy splitNames
          { _id := dataset_id, name := original_filename, status := "ready",
            nc := yy.nc.getD 0, names := yy.names.getD [], splits := [] } []) =
      .ok (doc, docs) := hok
  rw [hparse] at hok2
  have hok3 : processSplits env fs root dataset_id y splitNames
      { _id := dataset_id, name := original_filename, status := "ready",
        nc := y.nc.getD 0, names := y.names.getD [], splits := [] } [] =
      .ok (doc, docs) := hok2
  obtain ⟨h1, h2⟩ := processSplits_missing_spec env fs root dataset_id s rel y hdecl hmiss
    splitNames _ [] doc docs hok3 (by intro d hd; cases hd)
  exact ⟨h1 (Or.inl (splitPath_mem y s rel hdecl)), h2,
    processSplit_missing env fs root dataset_id s rel hmiss⟩

theorem declared_split_missing_dir_recorded_witness :
    "train" ∈ cDoc.splits ∧ (∀ d ∈ ([] : List ImageDoc), d.split ≠ "train") ∧
    processSplit cEnv cFs "/r" "d" "train" "images/train" = .ok [] :=
  declared_split_missing_dir_recorded cEnv cFs "/r" "d" "f.zip" "train" "images/train" "Y"
    cYaml cDoc [] (by decide) (by decide) (by decide) (by decide) (by decide)

theorem find?_key_append_singleton (l : List (String × DatasetRec)) (id : String)
    (r : DatasetRec) (h : l.find? (fun e => e.1 == id) = none) :
    (l ++ [(id, r)]).find? (fun e => e.1 == id) = some (id, r) := by
  induction l with
  | nil => simp [List.find?]
  | cons x t ih =>
    rw [List.cons_append]
    cases hx : (x.1 == id) with
    | true =>
      exfalso
      simp only [List.find?, hx] at h
      cases h
    | false =>
      simp only [List.find?, hx] at h ⊢
      exact ih h

theorem dbFind_append_singleton (l : List (String × DatasetRec)) (id : String)
    (r : DatasetRec) (h : dbFind l id = none) :
    dbFind (l ++ [(id, r)]) id = some r := by
  unfold dbFind at h ⊢
  cases hf : l.find? (fun e => e.1 == id) with
  | some v => rw [hf] at h; simp at h
  | none => rw [find?_key_append_singleton l id r hf]; rfl

theorem dbFind_updateFirst (l : List (String × DatasetRec)) (id : String)
    (f : DatasetRec → DatasetRec) :
    dbFind (updateFirst l id f) id = (dbFind l id).map f := by
  induction l with
  | nil => simp [updateFirst, dbFind, List.find?]
  | cons x t ih =>
    unfold updateFirst
    by_cases hx : (x.1 == id) = true
    · rw [if_pos hx]
      simp [dbFind, List.find?, hx]
    · rw [if_neg hx]
      have hx' : (x.1 == id) = false := by simpa using hx
      simp only [dbFind, List.find?, hx'] at ih ⊢
      exact ih

theorem dbMarkFailed_images (db : DB) (id err : String) :
    (dbMarkFailed db id err).images = db.images := by
  unfold dbMarkFailed
  split <;> rfl

theorem dbMarkFailed_find (db : DB) (id err : String) (r : DatasetRec)
    (h : dbFind db.datasets id = some r) :
    dbFind (dbMarkFailed db id err).datasets id = some (setFailed err r) := by
  unfold dbMarkFailed
  rw [if_pos (by simp [h])]
  show dbFind (updateFirst db.datasets id (setFailed err)) id = _
  rw [dbFind_updateFirst, h]
  rfl

theorem process_dataset_some (j : JobEnv) (object_key original_filename : String)
    (db : DB) (dataset_id : String)
    (hkey : (pySplitSepS object_key '/').get? 1 = some dataset_id) :
    process_dataset j object_key original_filename db =
      match dbInsertDataset db dataset_id
          { name := some original_filename, status := some "processing",
            created_at := some j.t0, nc := none, names := none, splits := none,
            processed_at := none, error := none } with
      | .error e => (.error e, dbMarkFailed db dataset_id (pyTruncate e 500))
      | .ok db1 =>
        match runPipeline j dataset_id original_filename with
        | .error e => (.error e, dbMarkFailed db1 dataset_id (pyTruncate e 500))
        | .ok r =>
          let db2 := dbMarkReady db1 dataset_id r.1.nc r.1.names r.1.splits j.t1
          let db3 := if r.2.isEmpty then db2 else { db2 with images := db2.images ++ r.2 }
          (.ok "success", db3) := by
  unfold process_dataset
  rw [hkey]

/-- C2: when the dataset id is fresh (the `processing` insert succeeds)
and the staged pipeline — download, extraction, root location, manifest
reading/parsing/walking — raises an exception, `process_dataset` re-raises
it, writes nothing to the images collection, and leaves the dataset
document with `status = "failed"` and `error` equal to the message
truncated to 500 characters (via the upsert-style update). -/
theorem pipeline_failure_marks_failed (j : JobEnv) (object_key original_filename : String)
    (db : DB) (dataset_id e : String)
    (hkey : (pySplitSepS object_key '/').get? 1 = some dataset_id)
    (hfresh : dbFind db.datasets dataset_id = none)
    (hfail : runPipeline j dataset_id original_filename = .error e) :
    (process_dataset j object_key original_filename db).1 = .error e ∧
    (process_dataset j object_key original_filename db).2.images = db.images ∧
    (dbFind (process_dataset j object_key original_filename db).2.datasets dataset_id).map
      (fun r => (r.status, r.error)) = some (some "failed", some (pyTruncate e 500)) := by
  have hins : dbInsertDataset db dataset_id
      { name := some original_filename, status := some "processing",
        created_at := some j.t0, nc := none, names := none, splits := none,
        processed_at := none, error := none } =
      .ok { db with datasets := db.datasets ++
        [(dataset_id,
          { name := some original_filename, status := some "processing",
            created_at := some j.t0, nc := none, names := none, splits := none,
            processed_at := none, error := none })] } := by
    unfold dbInsertDataset
    rw [if_neg (by simp [hfresh])]
  have hfind : dbFind (db.datasets ++
      [(dataset_id,
        { name := some original_filename, status := some "processing",
          created_at := some j.t0, nc := none, names := none, splits := none,
          processed_at := none, error := none })]) dataset_id =
      some { name := some original_filename, status := some "processing",
             created_at := some j.t0, nc := none, names := none, splits := none,
             processed_at := none, error := none } :=
    dbFind_append_singleton db.datasets dataset_id _ hfresh
  have hp : process_dataset j object_key original_filename db =
      (.error e, dbMarkFailed
        { db with datasets := db.datasets ++
          [(dataset_id,
            { name := some original_filename, status := some "processing",
              created_at := some j.t0, nc := none, names := none, splits := none,
              processed_at := none, error := none })] }
        dataset_id (pyTruncate e 500)) := by
    rw [process_dataset_some j object_key original_filename db dataset_id hkey, hins, hfail]
  rw [hp]
  refine ⟨rfl, dbMarkFailed_images _ _ _, ?_⟩
  rw [dbMarkFailed_find _ _ _ _ hfind]
  rfl

theorem pipeline_failure_marks_failed_witness :
    (process_dataset jW "u/ds1" "f.zip" db0).1 = .error "boom" ∧
    (process_dataset jW "u/ds1" "f.zip" db0).2.images = db0.images ∧
    (dbFind (process_dataset jW "u/ds1" "f.zip" db0).2.datasets "ds1").map
      (fun r => (r.status, r.error)) = some (some "failed", some (pyTruncate "boom" 500)) :=
  pipeline_failure_marks_failed jW "u/ds1" "f.zip" db0 "ds1" "boom"
    (by decide) (by decide) (by decide)

/-- C10: `process_dataset` computes the dataset id as segment 1 of the
"/"-split of the storage key before entering the try block: for a key
containing no "/" it raises `IndexError` ("list index out of range")
with the document store untouched, so such a job is never recorded as
failed. -/
theorem slashless_key_index_error (j : JobEnv) (object_key original_filename : String)
    (db : DB) (h : ∀ c ∈ object_key.toList, c ≠ '/') :
    process_dataset j object_key original_filename db =
      (.error "list index out of range", db) := by
  have hsplit : pySplitSepS object_key '/' = [object_key] := by
    unfold pySplitSepS
    rw [splitSepAux_no_sep '/' object_key.toList [] h]
    rfl
  unfold process_dataset
  rw [hsplit]
  rfl

theorem slashless_key_index_error_witness :
    process_dataset jW "abc" "f.zip" db0 = (.error "list index out of range", db0) :=
  slashless_key_index_error jW "abc" "f.zip" db0 (by decide)

end MiniYolo
